import Mathlib

/-!
# Verification of the budgets report script (`oscars.py`)

A shallow embedding of the pure core of `src/oscars.py`: the budget text
parser (`parse_budget`, `parse_number`), the report formatter
(`format_budget`), the year extractor (`get_year`), the budget cell locator
(`get_budget`), and the accumulator loop of `main`.

Python floats are modelled by the rationals `ℚ` (every value arising in the
claims is an exact decimal fraction).  Python exceptions are modelled by
`Option`/`Except`: `none`/`.error` marks a raised exception.
-/

namespace Oscars

/-- Whitespace characters recognised by Python's no-argument `str.split()`
(the ASCII ones; exotic Unicode space classes never occur in the inputs
considered here). -/
def pyIsSpace (c : Char) : Bool :=
  c == ' ' || c == '\t' || c == '\n' || c == '\r' || c == '\x0b' || c == '\x0c'

/-- `text.find('$')` followed by `text[i+1:]`: the suffix after the first
`'$'`, or `none` when `find` returns `-1` (no dollar sign anywhere). -/
def afterFirstDollar : List Char → Option (List Char)
  | [] => none
  | c :: cs => if c == '$' then some cs else afterFirstDollar cs

/-- Worker for `pySplit`: `cur` holds the characters of the token currently
being scanned, in reverse order. -/
def pySplitAux (cur : List Char) : List Char → List (List Char)
  | [] => if cur.isEmpty then [] else [cur.reverse]
  | c :: cs =>
    if pyIsSpace c then
      if cur.isEmpty then pySplitAux [] cs
      else cur.reverse :: pySplitAux [] cs
    else pySplitAux (c :: cur) cs

/-- Python's no-argument `str.split()`: split on runs of whitespace,
discarding empty pieces. -/
def pySplit (s : List Char) : List (List Char) :=
  pySplitAux [] s

/-- `a.startswith(b)` of Python, on character lists: `pyStartsWith pat s`
holds when `pat` is an initial segment of `s`. -/
def pyStartsWith : List Char → List Char → Bool
  | [], _ => true
  | _ :: _, [] => false
  | c :: cs, d :: ds => c == d && pyStartsWith cs ds

/-- The natural number denoted by a list of decimal digit characters
(most significant first); an empty list denotes 0. -/
def natOfDigits (ds : List Char) : ℕ :=
  ds.foldl (fun n c => 10 * n + (c.toNat - '0'.toNat)) 0

/-- Python's `float()` conversion, restricted to strings made of decimal
digits and `'.'` only (the only strings `parse_number` ever feeds it):
it succeeds iff the string has at least one digit and at most one dot, and
the value is `⟨integer part⟩ + ⟨fractional part⟩ / 10 ^ ⟨its length⟩`.
`none` models the `ValueError` Python raises otherwise (in particular on
the empty string and on strings with two or more dots). -/
def pyFloat (s : List Char) : Option ℚ :=
  if s.count '.' ≤ 1 && s.any Char.isDigit then
    let fp := (s.dropWhile (fun c => c != '.')).drop 1
    some ((natOfDigits (s.takeWhile (fun c => c != '.')) : ℚ) +
      (natOfDigits fp : ℚ) / 10 ^ fp.length)
  else none

/-- `parse_number` from `oscars.py`:
`float(''.join(c for c in text if c in '0123456789.'))`.
`none` models the `ValueError` raised by `float` on a malformed residue. -/
def parse_number (text : String) : Option ℚ :=
  pyFloat (text.toList.filter (fun c => c.isDigit || c == '.'))

/-- The two Python exceptions the budget parser can raise. -/
inductive PyErr where
  | indexError
  | valueError
deriving DecidableEq, Repr

/-- The body of `parse_budget` after the split: `parts[0]` raising
`IndexError` on an empty list (`.error .indexError`), `parse_number` on the
first token (`.error .valueError` when `float` raises), and the
`parts[1].startswith('million')` multiplier. -/
def budgetOfParts : List (List Char) → Except PyErr (Option ℚ)
  | [] => .error .indexError
  | p0 :: ps =>
    match parse_number (String.mk p0), ps with
    | none, _ => .error .valueError
    | some value, p1 :: _ =>
      if pyStartsWith "million".toList p1 then .ok (some (value * 1000000))
      else .ok (some value)
    | some value, [] => .ok (some value)

/-- `parse_budget` from `oscars.py`.  `.ok none` is the `None` sentinel
(no `'$'` in the text); the text after the first `'$'` is split on
whitespace and handed to `budgetOfParts`. -/
def parse_budget (text : String) : Except PyErr (Option ℚ) :=
  match afterFirstDollar text.toList with
  | none => .ok none
  | some rest => budgetOfParts (pySplit rest)

/-- Python's `round()` on a rational: round to the nearest integer, ties to
the even neighbour (banker's rounding). -/
def pyRound (q : ℚ) : ℤ :=
  let f := ⌊q⌋
  let r := q - f
  if r < 1 / 2 then f
  else if 1 / 2 < r then f + 1
  else if 2 ∣ f then f else f + 1

/-- Insert a `','` after every three characters of a reversed digit list
(worker for `commify`). -/
def commaChunks : List Char → List Char
  | a :: b :: c :: d :: rest => a :: b :: c :: ',' :: commaChunks (d :: rest)
  | l => l

/-- Python's `'{:,}'.format(n)` for an integer `n`: decimal digits grouped
in threes by commas, with a leading minus sign for negatives. -/
def commify (n : ℤ) : String :=
  (if n < 0 then "-" else "") ++
    String.mk (commaChunks (Nat.toDigits 10 n.natAbs).reverse).reverse

/-- Python's `'{:>w}'.format(s)`: pad `s` with spaces on the left to width
`w` (strings already at least `w` wide are returned unchanged). -/
def rightAlign (w : ℕ) (s : String) : String :=
  String.mk (List.replicate (w - s.length) ' ') ++ s

/-- Python truthiness of a `float or None` value: `None` and `0.0` are
falsy, every other float is truthy. -/
def truthy : Option ℚ → Bool
  | none => false
  | some q => decide (q ≠ 0)

/-- `format_budget` from `oscars.py`.  `wide` is `pre ++ '\x7b:>12\x7d'`
for the default `width = 14`, `pre = "$ "`; `thin` is the commified
rounded budget when `budget` is truthy and `"-"` otherwise. -/
def format_budget (budget : Option ℚ) (width : ℕ := 14) (pre : String := "$ ") : String :=
  let thin := if truthy budget then commify (pyRound (budget.getD 0)) else "-"
  pre ++ rightAlign (width - pre.length) thin

/-- `get_year` from `oscars.py`, acting on the list of textual fragments
`big.find_all(text=True)` of a year-marker tag.  `none` models the
`IndexError` raised by `texts[0]` on a tag with no text at all. -/
def get_year (texts : List String) : Option String :=
  let multi := texts.length > 1 && texts.getD 1 "" == "/"
  if multi then some (String.join (texts.take 3)) else texts.head?

/-- Substring test: does `pat` occur contiguously inside the second list?
Embeds Python's `pat in s` on strings. -/
def hasInfixFrom (pat : List Char) : List Char → Bool
  | [] => pat.isEmpty
  | c :: cs => pyStartsWith pat (c :: cs) || hasInfixFrom pat cs

/-- A `<th>` header cell of a detail page, reduced to the two pieces
`get_budget` inspects: `th.find(text=True)` (first text fragment, `none`
when there is none) and, for `th.parent.find('td')`, the list
`td.find_all(text=True)` (`none` when the parent row has no `<td>`). -/
structure ThTag where
  firstText : Option String
  tdTexts : Option (List String)

/-- A movie detail page, reduced to its list of `<th>` cells in document
order (all that `get_budget` traverses). -/
structure Page where
  ths : List ThTag

/-- `th.find(text=True) or ''`: the label text of a header cell, with
Python's `or` turning `None` into `''`. -/
def thLabel (th : ThTag) : String :=
  th.firstText.getD ""

/-- `get_budget` from `oscars.py`: the space-joined text of the `<td>` next
to the first `<th>` whose label contains `"Budget"`, the empty string when
no header matches, `none` (an `AttributeError`) when the matching header's
row has no `<td>`. -/
def get_budget (page : Page) : Option String :=
  match page.ths.filter (fun th => hasInfixFrom "Budget".toList (thLabel th).toList) with
  | [] => some ""
  | th :: _ => th.tdTexts.map (fun ts => String.intercalate " " ts)

/-- One iteration of the accumulator update in `main`'s row loop:
`if budget: count += 1; total += budget`. -/
def step (acc : ℕ × ℚ) (budget : Option ℚ) : ℕ × ℚ :=
  if truthy budget then (acc.1 + 1, acc.2 + budget.getD 0) else acc

/-- The `(count, total)` accumulator after `main`'s row loop, given the
per-movie budget values in row order. -/
def accumulate (budgets : List (Option ℚ)) : ℕ × ℚ :=
  budgets.foldl step (0, 0)

/-- The average `total / count` printed at the end of `main`; `none` models
the `ZeroDivisionError` raised when `count` is still `0`. -/
def reportAverage (budgets : List (Option ℚ)) : Option ℚ :=
  let acc := accumulate budgets
  if acc.1 = 0 then none else some (acc.2 / acc.1)

/-- The grammar of well-formed numeric tokens named by the spec: decimal
digits with optional commas and an optional (single) decimal point, with
at least one digit present. -/
def wellFormedNum (s : List Char) : Bool :=
  s.all (fun c => c.isDigit || c == ',' || c == '.') &&
    s.any Char.isDigit && decide (s.count '.' ≤ 1)

/-- The numeric value of a well-formed numeric token: drop the commas and
read `⟨integer part⟩.⟨fractional part⟩` as an exact decimal fraction. -/
def tokenValue (s : List Char) : ℚ :=
  let t := s.filter (fun c => c != ',')
  let fp := (t.dropWhile (fun c => c != '.')).drop 1
  (natOfDigits (t.takeWhile (fun c => c != '.')) : ℚ) +
    (natOfDigits fp : ℚ) / 10 ^ fp.length

/-- Is the list empty or headed by a whitespace character?  (The shape the
text after a complete token must have for `str.split()` to cut there.) -/
def headSpaceOrNil : List Char → Bool
  | [] => true
  | c :: _ => pyIsSpace c

end Oscars

namespace Oscars

/-! ## Supporting lemmas -/

theorem afterFirstDollar_eq_none (s : List Char) (h : '$' ∉ s) :
    afterFirstDollar s = none := by
  induction s with
  | nil => rfl
  | cons c cs ih =>
    have hc : c ≠ '$' := fun e => h (e ▸ List.mem_cons_self c cs)
    have hcs : '$' ∉ cs := fun m => h (List.mem_cons_of_mem c m)
    simp [afterFirstDollar, hc, ih hcs]

theorem afterFirstDollar_append (pre s : List Char) (h : '$' ∉ pre) :
    afterFirstDollar (pre ++ '$' :: s) = some s := by
  induction pre with
  | nil => simp [afterFirstDollar]
  | cons c cs ih =>
    have hc : c ≠ '$' := fun e => h (e ▸ List.mem_cons_self c cs)
    have hcs : '$' ∉ cs := fun m => h (List.mem_cons_of_mem c m)
    simp [afterFirstDollar, hc, ih hcs]

theorem pySplitAux_nil_of_space (s : List Char) (h : ∀ c ∈ s, pyIsSpace c = true) :
    pySplitAux [] s = [] := by
  induction s with
  | nil => rfl
  | cons c cs ih =>
    have hc := h c (List.mem_cons_self c cs)
    have hcs := fun d hd => h d (List.mem_cons_of_mem c hd)
    simp [pySplitAux, hc, ih hcs]

theorem pySplit_nil_of_space (s : List Char) (h : ∀ c ∈ s, pyIsSpace c = true) :
    pySplit s = [] :=
  pySplitAux_nil_of_space s h

theorem pySplit_cons_space (c : Char) (s : List Char) (h : pyIsSpace c = true) :
    pySplit (c :: s) = pySplit s := by
  simp [pySplit, pySplitAux, h]

theorem pySplit_space_append (sp x : List Char) (h : ∀ c ∈ sp, pyIsSpace c = true) :
    pySplit (sp ++ x) = pySplit x := by
  induction sp with
  | nil => rfl
  | cons c cs ih =>
    have hc := h c (List.mem_cons_self c cs)
    have hcs := fun d hd => h d (List.mem_cons_of_mem c hd)
    rw [List.cons_append, pySplit_cons_space c (cs ++ x) hc, ih hcs]

theorem pySplitAux_token (tok : List Char) (h : ∀ c ∈ tok, pyIsSpace c = false) :
    ∀ cur rest, pySplitAux cur (tok ++ rest) = pySplitAux (tok.reverse ++ cur) rest := by
  induction tok with
  | nil => intro cur rest; rfl
  | cons c cs ih =>
    intro cur rest
    have hc := h c (List.mem_cons_self c cs)
    have hcs := fun d hd => h d (List.mem_cons_of_mem c hd)
    rw [List.cons_append]
    show (if pyIsSpace c then _ else pySplitAux (c :: cur) (cs ++ rest)) = _
    rw [hc]
    simp only [Bool.false_eq_true, if_false]
    rw [ih hcs (c :: cur) rest]
    simp [List.append_assoc]

theorem pySplit_token (tok rest : List Char) (hne : tok ≠ [])
    (h : ∀ c ∈ tok, pyIsSpace c = false) (hr : headSpaceOrNil rest = true) :
    pySplit (tok ++ rest) = tok :: pySplit rest := by
  have hrev : tok.reverse.isEmpty = false := by
    cases htok : tok.reverse with
    | nil => exact absurd (List.reverse_eq_nil_iff.mp htok) hne
    | cons a l => rfl
  rw [pySplit, pySplitAux_token tok h [] rest, List.append_nil]
  cases rest with
  | nil => simp [pySplitAux, hrev, pySplit]
  | cons r rs =>
    have hsp : pyIsSpace r = true := hr
    rw [pySplit_cons_space r rs hsp]
    simp [pySplitAux, hsp, hrev, pySplit]

theorem not_space_of_allowed {c : Char}
    (h : (c.isDigit || c == ',' || c == '.') = true) : pyIsSpace c = false := by
  by_contra hc
  have hs : pyIsSpace c = true := by
    cases hp : pyIsSpace c
    · exact absurd hp hc
    · rfl
  have : ((((c = ' ' ∨ c = '\t') ∨ c = '\n') ∨ c = '\r') ∨ c = '\x0b') ∨ c = '\x0c' := by
    simpa [pyIsSpace] using hs
  rcases this with ((((h' | h') | h') | h') | h') | h' <;> subst h' <;>
    exact absurd h (by decide)

theorem keep_eq_of_allowed {c : Char}
    (h : (c.isDigit || c == ',' || c == '.') = true) :
    (c.isDigit || c == '.') = (c != ',') := by
  rcases Bool.or_eq_true_iff.mp h with h1 | h1
  · rcases Bool.or_eq_true_iff.mp h1 with h2 | h2
    · have hc : c ≠ ',' := fun e => absurd (e ▸ h2) (by decide)
      simp [h2, hc]
    · have e : c = ',' := by simpa using h2
      subst e; decide
  · have e : c = '.' := by simpa using h1
    subst e; decide

theorem wf_parts {num : List Char} (h : wellFormedNum num = true) :
    (∀ c ∈ num, (c.isDigit || c == ',' || c == '.') = true) ∧
      (∃ d ∈ num, d.isDigit = true) ∧ num.count '.' ≤ 1 := by
  unfold wellFormedNum at h
  simp only [Bool.and_eq_true, List.all_eq_true, List.any_eq_true, decide_eq_true_eq] at h
  exact ⟨h.1.1, h.1.2, h.2⟩

theorem nonspace_of_wf {num : List Char} (h : wellFormedNum num = true) :
    ∀ c ∈ num, pyIsSpace c = false :=
  fun c hc => not_space_of_allowed ((wf_parts h).1 c hc)

theorem ne_nil_of_wf {num : List Char} (h : wellFormedNum num = true) : num ≠ [] := by
  obtain ⟨-, ⟨d, hd, -⟩, -⟩ := wf_parts h
  exact List.ne_nil_of_mem hd

theorem pyFloat_eq_some {t : List Char} (h1 : t.count '.' ≤ 1)
    (h2 : t.any Char.isDigit = true) :
    pyFloat t = some ((natOfDigits (t.takeWhile (fun c => c != '.')) : ℚ) +
      (natOfDigits ((t.dropWhile (fun c => c != '.')).drop 1) : ℚ) /
        10 ^ ((t.dropWhile (fun c => c != '.')).drop 1).length) := by
  have hcond : (decide (t.count '.' ≤ 1) && t.any Char.isDigit) = true := by
    rw [Bool.and_eq_true]
    exact ⟨decide_eq_true h1, h2⟩
  unfold pyFloat
  rw [if_pos hcond]

theorem parse_number_wf {num : List Char} (h : wellFormedNum num = true) :
    parse_number (String.mk num) = some (tokenValue num) := by
  obtain ⟨hall, ⟨d, hd, hdig⟩, hcount⟩ := wf_parts h
  have hfilters : num.filter (fun c => c.isDigit || c == '.') =
      num.filter (fun c => c != ',') :=
    List.filter_congr (fun c hc => keep_eq_of_allowed (hall c hc))
  have hcount' : (num.filter (fun c => c != ',')).count '.' ≤ 1 := by
    rw [List.count_filter (by decide)]
    exact hcount
  have hany : (num.filter (fun c => c != ',')).any Char.isDigit = true := by
    rw [List.any_eq_true]
    have hdne : (d != ',') = true := by
      have : d ≠ ',' := fun e => absurd (e ▸ hdig) (by decide)
      simpa using this
    exact ⟨d, List.mem_filter.mpr ⟨hd, hdne⟩, hdig⟩
  show pyFloat ((String.mk num).toList.filter (fun c => c.isDigit || c == '.')) = _
  rw [show (String.mk num).toList = num from rfl, hfilters, pyFloat_eq_some hcount' hany]
  rfl

theorem parse_budget_eq_budgetOfParts (text : String) (s : List Char)
    (h : afterFirstDollar text.toList = some s) :
    parse_budget text = budgetOfParts (pySplit s) := by
  unfold parse_budget
  rw [h]

theorem budgetOfParts_one (p0 : List Char) (v : ℚ)
    (h : parse_number (String.mk p0) = some v) : budgetOfParts [p0] = .ok (some v) := by
  simp [budgetOfParts, h]

theorem budgetOfParts_million (p0 p1 : List Char) (rest : List (List Char)) (v : ℚ)
    (h : parse_number (String.mk p0) = some v)
    (hm : pyStartsWith "million".toList p1 = true) :
    budgetOfParts (p0 :: p1 :: rest) = .ok (some (v * 1000000)) := by
  have hm' : pyStartsWith ['m', 'i', 'l', 'l', 'i', 'o', 'n'] p1 = true := hm
  simp [budgetOfParts, h, hm']

theorem ne_nil_of_startsWith {pat w : List Char} (hp : pat ≠ [])
    (h : pyStartsWith pat w = true) : w ≠ [] := by
  cases pat with
  | nil => exact absurd rfl hp
  | cons c cs =>
    cases w with
    | nil => exact absurd h (by simp [pyStartsWith])
    | cons d ds => exact List.cons_ne_nil d ds

theorem headSpaceOrNil_append {sp : List Char} (x : List Char) (hne : sp ≠ [])
    (h : ∀ c ∈ sp, pyIsSpace c = true) : headSpaceOrNil (sp ++ x) = true := by
  cases sp with
  | nil => exact absurd rfl hne
  | cons c cs => exact h c (List.mem_cons_self c cs)

/-! ## Claim theorems -/

/-- C1: for every well-formed `"$<number>"` input (a `'$'` followed by a
numeric token of digits, optional commas and an optional decimal point),
`parse_budget` returns the numeric value of the token; and when a second
whitespace-separated token after the `'$'` starts with the literal
`"million"`, it returns that value multiplied by 1,000,000. -/
theorem parse_budget_spec :
    (∀ num : List Char, wellFormedNum num = true →
        parse_budget (String.mk ('$' :: num)) = .ok (some (tokenValue num))) ∧
    (∀ num sp w trail : List Char, wellFormedNum num = true →
        (∀ c ∈ sp, pyIsSpace c = true) → sp ≠ [] →
        (∀ c ∈ w, pyIsSpace c = false) → pyStartsWith "million".toList w = true →
        headSpaceOrNil trail = true →
        parse_budget (String.mk ('$' :: (num ++ (sp ++ (w ++ trail))))) =
          .ok (some (tokenValue num * 1000000))) := by
  constructor
  · intro num h
    have hsplit : pySplit num = [num] := by
      have := pySplit_token num [] (ne_nil_of_wf h) (nonspace_of_wf h) rfl
      simpa [pySplit] using this
    rw [parse_budget_eq_budgetOfParts (String.mk ('$' :: num)) num rfl, hsplit,
      budgetOfParts_one num _ (parse_number_wf h)]
  · intro num sp w trail h hsp hspne hw hm htr
    have hwne : w ≠ [] := ne_nil_of_startsWith (by decide) hm
    have hsplit : pySplit (num ++ (sp ++ (w ++ trail))) = num :: w :: pySplit trail := by
      rw [pySplit_token num (sp ++ (w ++ trail)) (ne_nil_of_wf h) (nonspace_of_wf h)
          (headSpaceOrNil_append _ hspne hsp),
        pySplit_space_append sp (w ++ trail) hsp,
        pySplit_token w trail hwne hw htr]
    rw [parse_budget_eq_budgetOfParts (String.mk ('$' :: (num ++ (sp ++ (w ++ trail)))))
        (num ++ (sp ++ (w ++ trail))) rfl, hsplit,
      budgetOfParts_million num w _ _ (parse_number_wf h) hm]

theorem parse_budget_spec_witness :
    (wellFormedNum "100,000".toList = true ∧
      parse_budget (String.mk ('$' :: "100,000".toList)) =
        .ok (some (tokenValue "100,000".toList))) ∧
    (wellFormedNum "1.25".toList = true ∧
      parse_budget (String.mk ('$' :: ("1.25".toList ++
          ([' '] ++ ("million".toList ++ []))))) =
        .ok (some (tokenValue "1.25".toList * 1000000))) :=
  ⟨⟨by decide, parse_budget_spec.1 "100,000".toList (by decide)⟩,
    ⟨by decide, parse_budget_spec.2 "1.25".toList [' '] "million".toList []
      (by decide) (by decide) (by decide) (by decide) (by decide) (by decide)⟩⟩

/-- C2: for every input string without a `'$'` character (the empty string
included), `parse_budget` returns the unparseable sentinel `None`. -/
theorem parse_budget_no_dollar (text : String) (h : '$' ∉ text.toList) :
    parse_budget text = .ok none := by
  unfold parse_budget
  rw [afterFirstDollar_eq_none text.toList h]

theorem parse_budget_no_dollar_witness :
    ('$' ∉ "unknown".toList ∧ parse_budget "unknown" = .ok none) ∧
      ('$' ∉ "".toList ∧ parse_budget "" = .ok none) :=
  ⟨⟨by decide, parse_budget_no_dollar "unknown" (by decide)⟩,
    ⟨by decide, parse_budget_no_dollar "" (by decide)⟩⟩

/-- C3 counterexample: the claim says a numeric token with several decimal
points passes through `parse_number` without an error, but in the code
`float("1.2.3")` raises `ValueError`; the model returns `none`. -/
theorem parse_number_multidot_cex : parse_number "1.2.3" = none := rfl

/-- C3 (amended): the filtering step concatenates all digit and `'.'`
characters without validation, but the subsequent `float` conversion then
raises `ValueError` on every token whose filtered residue has two or more
decimal points, so such tokens are failures rather than passing through. -/
theorem parse_number_multidot (text : String)
    (h : 1 < (text.toList.filter (fun c => c.isDigit || c == '.')).count '.') :
    parse_number text = none := by
  have hle : ¬ ((text.toList.filter (fun c => c.isDigit || c == '.')).count '.' ≤ 1) := by
    omega
  unfold parse_number pyFloat
  rw [if_neg]
  intro hc
  rw [Bool.and_eq_true] at hc
  exact hle (of_decide_eq_true hc.1)

theorem parse_number_multidot_witness :
    1 < ("1.2.3".toList.filter (fun c => c.isDigit || c == '.')).count '.' ∧
      parse_number "1.2.3" = none :=
  ⟨by decide, parse_number_multidot "1.2.3" (by decide)⟩

/-- C9: an input whose first `'$'` is followed by nothing or only
whitespace makes `parse_budget` raise `IndexError` at `parts[0]` instead of
returning the `None` sentinel. -/
theorem parse_budget_dollar_space (pre s : List Char) (h1 : '$' ∉ pre)
    (h2 : ∀ c ∈ s, pyIsSpace c = true) :
    parse_budget (String.mk (pre ++ '$' :: s)) = .error .indexError := by
  rw [parse_budget_eq_budgetOfParts _ s
      (by rw [show (String.mk (pre ++ '$' :: s)).toList = pre ++ '$' :: s from rfl]
          exact afterFirstDollar_append pre s h1),
    pySplit_nil_of_space s h2]
  rfl

theorem parse_budget_dollar_space_witness :
    ('$' ∉ ([] : List Char) ∧ parse_budget (String.mk ([] ++ '$' :: [])) =
        .error .indexError) ∧
    ('$' ∉ ([] : List Char) ∧ (∀ c ∈ [' ', ' ', ' '], pyIsSpace c = true) ∧
      parse_budget (String.mk ([] ++ '$' :: [' ', ' ', ' '])) = .error .indexError) :=
  ⟨⟨by decide, parse_budget_dollar_space [] [] (by decide) (by decide)⟩,
    ⟨by decide, by decide,
      parse_budget_dollar_space [] [' ', ' ', ' '] (by decide) (by decide)⟩⟩

theorem format_budget_1234567 : format_budget (some 1234567) = "$    1,234,567" := by
  have ht : truthy (some (1234567 : ℚ)) = true := by simp [truthy]
  have hr : pyRound (1234567 : ℚ) = 1234567 := by
    simp only [pyRound, Int.floor_ofNat, Int.cast_ofNat, sub_self]
    norm_num
  unfold format_budget
  rw [ht, show (some (1234567 : ℚ)).getD 0 = (1234567 : ℚ) from rfl, hr]
  rfl

/-- C4 counterexample: the spec's example string `"$        1,234,567"` is
18 characters wide; the code lays the commified number out in a total field
of 14 characters, so `format_budget(1234567)` is `"$    1,234,567"`. -/
theorem format_budget_cex : format_budget (some 1234567) ≠ "$        1,234,567" := by
  rw [format_budget_1234567]
  decide

/-- C4 (amended): `format_budget(1234567)` is the 14-character string
`"$    1,234,567"` — the `"$ "` prefix followed by the thousands-grouped
integer right-aligned in the remaining 12 columns — and
`format_budget(None)` is a right-aligned `"-"` in the same 14-wide
field. -/
theorem format_budget_values :
    format_budget (some 1234567) = "$    1,234,567" ∧
    (format_budget (some 1234567)).length = 14 ∧
    format_budget none = "$            -" ∧ (format_budget none).length = 14 := by
  refine ⟨format_budget_1234567, ?_, rfl, rfl⟩
  rw [format_budget_1234567]
  rfl

/-- C5: `get_year` concatenates the first three textual fragments when a
second fragment exists and equals `"/"`, and otherwise returns exactly the
first fragment; `["1939"]` yields `"1939"` and
`["1927", "/", "28", "[A]"]` yields `"1927/28"`, the footnote excluded. -/
theorem get_year_spec :
    (∀ texts : List String, 1 < texts.length → texts.getD 1 "" = "/" →
        get_year texts = some (String.join (texts.take 3))) ∧
    (∀ texts : List String, texts ≠ [] → ¬(1 < texts.length ∧ texts.getD 1 "" = "/") →
        get_year texts = some (texts.headD "")) ∧
    get_year ["1939"] = some "1939" ∧
    get_year ["1927", "/", "28", "[A]"] = some "1927/28" := by
  refine ⟨?_, ?_, rfl, rfl⟩
  · intro texts h1 h2
    have hmulti : (texts.length > 1 && texts.getD 1 "" == "/") = true := by
      rw [Bool.and_eq_true]
      refine ⟨decide_eq_true h1, ?_⟩
      rw [h2]
      rfl
    show (if (texts.length > 1 && texts.getD 1 "" == "/") = true
        then some (String.join (texts.take 3)) else texts.head?) = _
    rw [hmulti]
    rfl
  · intro texts hne h2
    have hmulti : (texts.length > 1 && texts.getD 1 "" == "/") = false := by
      cases hb : (texts.length > 1 && texts.getD 1 "" == "/") with
      | false => rfl
      | true =>
        rw [Bool.and_eq_true] at hb
        exact absurd ⟨of_decide_eq_true hb.1, by simpa using hb.2⟩ h2
    show (if (texts.length > 1 && texts.getD 1 "" == "/") = true
        then some (String.join (texts.take 3)) else texts.head?) = _
    rw [hmulti]
    simp only [Bool.false_eq_true, if_false]
    cases texts with
    | nil => exact absurd rfl hne
    | cons a l => rfl

theorem get_year_spec_witness :
    (1 < (["1927", "/", "28", "[A]"] : List String).length ∧
      (["1927", "/", "28", "[A]"] : List String).getD 1 "" = "/" ∧
      get_year ["1927", "/", "28", "[A]"] =
        some (String.join ((["1927", "/", "28", "[A]"] : List String).take 3))) ∧
    ((["1939"] : List String) ≠ [] ∧
      ¬(1 < (["1939"] : List String).length ∧ (["1939"] : List String).getD 1 "" = "/") ∧
      get_year ["1939"] = some ((["1939"] : List String).headD "")) :=
  ⟨⟨by decide, by decide, get_year_spec.1 ["1927", "/", "28", "[A]"] (by decide) (by decide)⟩,
    ⟨by decide, by decide, get_year_spec.2.1 ["1939"] (by decide) (by decide)⟩⟩

/-- C6: `parse_number` strips every character that is not a digit or `'.'`
(commas included) before converting: `parse_number("1,234.5") = 1234.5`,
`parse_number("12") = 12.0`, and pre-stripping a string to its kept
characters never changes the result. -/
theorem parse_number_values :
    parse_number "1,234.5" = some (1234.5 : ℚ) ∧ parse_number "12" = some 12 ∧
    (∀ s : List Char,
      parse_number (String.mk (s.filter (fun c => c.isDigit || c == '.'))) =
        parse_number (String.mk s)) := by
  refine ⟨?_, ?_, ?_⟩
  · have h : parse_number "1,234.5" = some ((natOfDigits ['1', '2', '3', '4'] : ℚ) +
        (natOfDigits ['5'] : ℚ) / 10 ^ (['5'] : List Char).length) := rfl
    rw [h, show natOfDigits ['1', '2', '3', '4'] = 1234 from rfl,
      show natOfDigits ['5'] = 5 from rfl, show (['5'] : List Char).length = 1 from rfl]
    norm_num
  · have h : parse_number "12" = some ((natOfDigits ['1', '2'] : ℚ) +
        (natOfDigits ([] : List Char) : ℚ) / 10 ^ (([] : List Char) : List Char).length) :=
      rfl
    rw [h, show natOfDigits ['1', '2'] = 12 from rfl,
      show natOfDigits ([] : List Char) = 0 from rfl]
    norm_num
  · intro s
    show pyFloat ((s.filter (fun c => c.isDigit || c == '.')).filter
        (fun c => c.isDigit || c == '.')) =
      pyFloat (s.filter (fun c => c.isDigit || c == '.'))
    rw [List.filter_filter]
    simp

/-- C7: on a detail page none of whose header cells has a label containing
`"Budget"`, `get_budget` returns the empty string (a normal, non-error
absence), `parse_budget` maps it to the `None` sentinel, and the report row
renders the budget field as a right-aligned `"-"`. -/
theorem get_budget_no_header (page : Page)
    (h : ∀ th ∈ page.ths, hasInfixFrom "Budget".toList (thLabel th).toList = false) :
    get_budget page = some "" ∧ parse_budget "" = .ok none ∧
      format_budget none = "$            -" := by
  refine ⟨?_, rfl, rfl⟩
  unfold get_budget
  rw [List.filter_eq_nil_iff.mpr
    (fun th hth => by rw [h th hth]; exact Bool.false_ne_true)]

theorem get_budget_no_header_witness :
    (∀ th ∈ (Page.mk [ThTag.mk (some "Directed by") (some ["Victor Fleming"])]).ths,
        hasInfixFrom "Budget".toList (thLabel th).toList = false) ∧
    (get_budget (Page.mk [ThTag.mk (some "Directed by") (some ["Victor Fleming"])]) =
        some "" ∧
      parse_budget "" = .ok none ∧ format_budget none = "$            -") :=
  ⟨by decide, get_budget_no_header _ (by decide)⟩

theorem foldl_step_const {l : List (Option ℚ)} (h : ∀ b ∈ l, truthy b = false) :
    ∀ acc : ℕ × ℚ, l.foldl step acc = acc := by
  induction l with
  | nil => intro acc; rfl
  | cons b bs ih =>
    intro acc
    have hb := h b (List.mem_cons_self b bs)
    have hbs := fun x hx => h x (List.mem_cons_of_mem b hx)
    rw [List.foldl_cons, show step acc b = acc from by simp [step, hb]]
    exact ih hbs acc

/-- C8: when no movie in the run yields a parseable (truthy) budget the
accumulator count stays zero and computing the average raises an unhandled
`ZeroDivisionError`; with at least one parsed budget the printed average is
the accumulated total divided by the accumulated count. -/
theorem reportAverage_spec :
    (∀ budgets : List (Option ℚ), (∀ b ∈ budgets, truthy b = false) →
        (accumulate budgets).1 = 0 ∧ reportAverage budgets = none) ∧
    (∀ budgets : List (Option ℚ), (accumulate budgets).1 ≠ 0 →
        reportAverage budgets =
          some ((accumulate budgets).2 / (accumulate budgets).1)) := by
  constructor
  · intro budgets h
    have hacc : accumulate budgets = (0, 0) := foldl_step_const h (0, 0)
    refine ⟨by rw [hacc], ?_⟩
    unfold reportAverage
    rw [if_pos (by rw [hacc])]
  · intro budgets h
    unfold reportAverage
    rw [if_neg h]

theorem reportAverage_spec_witness :
    ((∀ b ∈ ([none] : List (Option ℚ)), truthy b = false) ∧
      ((accumulate [none]).1 = 0 ∧ reportAverage [none] = none)) ∧
    ((accumulate [some 5]).1 ≠ 0 ∧ reportAverage [some 5] =
      some ((accumulate [some 5]).2 / (accumulate [some 5]).1)) :=
  have hne : (accumulate [some 5]).1 ≠ 0 := by norm_num [accumulate, step, truthy]
  ⟨⟨by simp [truthy], reportAverage_spec.1 [none] (by simp [truthy])⟩,
    ⟨hne, reportAverage_spec.2 [some 5] hne⟩⟩

/-- C10: a budget equal to 0.0 is treated exactly like an absent budget
(both sites test truthiness, not presence): `format_budget` renders it as
the right-aligned `"-"` rather than `"$ 0"`, and the row loop's accumulator
update skips it just as it skips `None`. -/
theorem zero_budget_spec :
    format_budget (some 0) = format_budget none ∧
    format_budget (some 0) = "$            -" ∧
    (∀ acc : ℕ × ℚ, step acc (some 0) = step acc none) := by
  have ht : truthy (some (0 : ℚ)) = false := by simp [truthy]
  have h1 : format_budget (some 0) = format_budget none := by
    unfold format_budget
    rw [ht, show truthy none = false from rfl]
    simp only [Bool.false_eq_true, if_false]
  refine ⟨h1, h1.trans rfl, ?_⟩
  intro acc
  unfold step
  rw [ht, show truthy none = false from rfl]
  simp only [Bool.false_eq_true, if_false]

end Oscars
